import Mathlib

/-!
Verification development for the StudyBuddy backend document-synthesis
pipeline.  Python strings are modelled as lists of characters
(`Str := List Char`), machine behaviour is embedded as executable Lean
functions translated from the source files under `app/`, and the spec's
claims are settled as theorems about those functions.
-/

namespace StudyBuddy

/-- Python strings, modelled as lists of characters. -/
abbrev Str := List Char

/-- Characters matched by Python's `str.isspace` and by `\s` in a `re`
pattern over `str` (the Unicode whitespace set). -/
def pyIsSpace (c : Char) : Bool :=
  let n := c.toNat
  (9 ≤ n ∧ n ≤ 13) || n = 28 || n = 29 || n = 30 || n = 31 || n = 32 ||
  n = 0x85 || n = 0xA0 || n = 0x1680 ||
  (0x2000 ≤ n ∧ n ≤ 0x200A) || n = 0x2028 || n = 0x2029 ||
  n = 0x202F || n = 0x205F || n = 0x3000

/-- Python's `str.strip()`: remove leading and trailing whitespace. -/
def pyStrip (l : Str) : Str :=
  ((l.dropWhile pyIsSpace).reverse.dropWhile pyIsSpace).reverse

/-- Python's `sep.join(parts)`. -/
def joinSep (sep : Str) : List Str → Str
  | [] => []
  | [p] => p
  | p :: ps => p ++ sep ++ joinSep sep ps

/-- Python's `s.split("\n")`: split at every newline; `"".split("\n") = [""]`. -/
def splitNl : Str → List Str
  | [] => [[]]
  | c :: cs =>
    if c = '\n' then [] :: splitNl cs
    else
      match splitNl cs with
      | [] => [[c]]
      | p :: ps => (c :: p) :: ps

/-- `"\n".join`. -/
def joinNl : List Str → Str := joinSep ['\n']

/-- The paragraph-accumulation loop of `chunk_text`
(`app/routers/upload.py`, lines 21-32), kept at the level of paragraph
lists: `cur` is the chunk under construction and `n` the running
character budget `sum (len(para) + 1)`. -/
def chunkAux (maxChars : Nat) : List Str → List Str → Nat → List (List Str)
  | [], cur, _ => if cur = [] then [] else [cur]
  | p :: ps, cur, n =>
    if maxChars < n + p.length + 1 ∧ cur ≠ [] then
      cur :: chunkAux maxChars ps [p] (p.length + 1)
    else
      chunkAux maxChars ps (cur ++ [p]) (n + p.length + 1)

/-- The chunks of `chunk_text`, before the final `"\n".join` of each chunk. -/
def chunkRaw (s : Str) (maxChars : Nat) : List (List Str) :=
  chunkAux maxChars (splitNl s) [] 0

/-- `chunk_text(s, max_chars)` from `app/routers/upload.py`. -/
def chunk_text (s : Str) (maxChars : Nat) : List Str :=
  (chunkRaw s maxChars).map joinNl

theorem splitNl_ne_nil (l : Str) : splitNl l ≠ [] := by
  cases l with
  | nil => simp [splitNl]
  | cons c cs =>
    simp only [splitNl]
    split
    · simp
    · cases h : splitNl cs <;> simp

theorem joinNl_splitNl (l : Str) : joinNl (splitNl l) = l := by
  induction l with
  | nil => rfl
  | cons c cs ih =>
    simp only [splitNl]
    split
    · rename_i hc
      subst hc
      have := splitNl_ne_nil cs
      cases h : splitNl cs with
      | nil => exact absurd h this
      | cons p ps =>
        rw [h] at ih
        cases ps with
        | nil => simpa [joinNl, joinSep] using ih
        | cons q qs => simpa [joinNl, joinSep] using ih
    · cases h : splitNl cs with
      | nil => exact absurd h (splitNl_ne_nil cs)
      | cons p ps =>
        rw [h] at ih
        cases ps with
        | nil => simpa [joinNl, joinSep] using ih
        | cons q qs => simpa [joinNl, joinSep] using ih

theorem chunkAux_join (maxChars : Nat) :
    ∀ (ps : List Str) (cur : List Str) (n : Nat),
      (chunkAux maxChars ps cur n).flatten = cur ++ ps := by
  intro ps
  induction ps with
  | nil =>
    intro cur n
    simp only [chunkAux]
    split <;> simp_all
  | cons p ps ih =>
    intro cur n
    simp only [chunkAux]
    split
    · simp [ih]
    · simp [ih]

theorem chunkAux_ne_nil (maxChars : Nat) :
    ∀ (ps : List Str) (cur : List Str) (n : Nat),
      ∀ c ∈ chunkAux maxChars ps cur n, c ≠ [] := by
  intro ps
  induction ps with
  | nil =>
    intro cur n c hc
    simp only [chunkAux] at hc
    split at hc
    · simp at hc
    · rename_i h
      simp at hc
      simpa [hc] using h
  | cons p ps ih =>
    intro cur n c hc
    simp only [chunkAux] at hc
    split at hc
    · rename_i h
      rcases List.mem_cons.mp hc with h1 | h2
      · subst h1; exact h.2
      · exact ih _ _ c h2
    · exact ih _ _ c hc

theorem joinSep_append (sep : Str) (g h : List Str) (hg : g ≠ []) (hh : h ≠ []) :
    joinSep sep (g ++ h) = joinSep sep g ++ sep ++ joinSep sep h := by
  induction g with
  | nil => exact absurd rfl hg
  | cons a g ih =>
    cases g with
    | nil =>
      cases h with
      | nil => exact absurd rfl hh
      | cons b hs => simp [joinSep]
    | cons a2 g2 =>
      have ihh := ih (by simp)
      simp only [List.cons_append] at ihh ⊢
      simp only [joinSep]
      rw [ihh]
      simp

theorem joinSep_flatten (sep : Str) (groups : List (List Str))
    (hne : ∀ g ∈ groups, g ≠ []) :
    joinSep sep (groups.map (joinSep sep)) = joinSep sep groups.flatten := by
  induction groups with
  | nil => rfl
  | cons g gs ih =>
    cases gs with
    | nil => simp [joinSep]
    | cons g2 gs2 =>
      have hg : g ≠ [] := hne g (by simp)
      have hflat : (g2 :: gs2).flatten ≠ [] := by
        have hg2 : g2 ≠ [] := hne g2 (by simp)
        cases g2 with
        | nil => exact absurd rfl hg2
        | cons x xs => simp
      have ih2 := ih (fun g hm => hne g (List.mem_cons_of_mem _ hm))
      calc joinSep sep ((g :: g2 :: gs2).map (joinSep sep))
          = joinSep sep g ++ sep ++ joinSep sep ((g2 :: gs2).map (joinSep sep)) := by
            simp only [List.map_cons, joinSep]
        _ = joinSep sep g ++ sep ++ joinSep sep ((g2 :: gs2).flatten) := by rw [ih2]
        _ = joinSep sep (g ++ (g2 :: gs2).flatten) :=
            (joinSep_append sep g _ hg hflat).symm

theorem chunkAux_oversized (maxChars : Nat) :
    ∀ (ps : List Str) (cur : List Str) (n : Nat),
      n = (cur.map (fun q => q.length + 1)).sum →
      (∀ q ∈ cur, maxChars < q.length → cur = [q]) →
      ∀ c ∈ chunkAux maxChars ps cur n, ∀ p ∈ c, maxChars < p.length → c = [p] := by
  intro ps
  induction ps with
  | nil =>
    intro cur n _ hcur c hc
    simp only [chunkAux] at hc
    split at hc
    · simp at hc
    · simp at hc
      subst hc
      exact hcur
  | cons p ps ih =>
    intro cur n hn hcur c hc
    simp only [chunkAux] at hc
    split at hc
    · rcases List.mem_cons.mp hc with h1 | h2
      · subst h1; exact hcur
      · refine ih [p] (p.length + 1) (by simp) ?_ c h2
        intro q hq _
        simp at hq
        simp [hq]
    · rename_i hcond
      refine ih (cur ++ [p]) (n + p.length + 1) (by simp [hn]; omega) ?_ c hc
      intro q hq hbig
      rcases not_and_or.mp hcond with hle | hcur_nil
      · push_neg at hle
        exfalso
        rcases List.mem_append.mp hq with hq1 | hq2
        · have : q.length + 1 ≤ (cur.map (fun q => q.length + 1)).sum := by
            exact List.single_le_sum (by intro x _; omega) _
              (List.mem_map_of_mem _ hq1)
          omega
        · simp at hq2
          subst hq2
          omega
      · have hc0 : cur = [] := not_not.mp hcur_nil
        subst hc0
        simp at hq
        simp [hq]

/-- C2: `chunk_text` never splits a newline-delimited paragraph across two
chunks (the chunks, as paragraph lists, flatten back to the paragraph list
of the input), a paragraph longer than `max_chars` is always emitted as
its own singleton chunk, and joining the returned chunks with `"\n"`
reproduces the input string exactly. -/
theorem chunk_text_spec (s : Str) (maxChars : Nat) :
    (chunkRaw s maxChars).flatten = splitNl s ∧
    joinNl (chunk_text s maxChars) = s ∧
    (∀ c ∈ chunkRaw s maxChars, ∀ p ∈ c, maxChars < p.length → c = [p]) := by
  refine ⟨chunkAux_join maxChars (splitNl s) [] 0, ?_, ?_⟩
  · show joinNl ((chunkRaw s maxChars).map joinNl) = s
    rw [joinNl, chunkRaw, joinSep_flatten ['\n'] _ (chunkAux_ne_nil maxChars (splitNl s) [] 0)]
    rw [chunkAux_join maxChars (splitNl s) [] 0]
    exact joinNl_splitNl s
  · exact chunkAux_oversized maxChars (splitNl s) [] 0 (by simp)
      (by intro q hq; simp at hq)

/-!
`normalize_markdown_final` (`app/routers/upload.py`, lines 34-66) is a
chain of `re.sub` passes.  Each pass is embedded below as a character-list
transformation implementing the exact scanning/backtracking behaviour of
the corresponding Python pattern (leftmost match, non-overlapping,
continue after the match).  `\d` is modelled as the ASCII digits.
-/

/-- The zero-width class `[​-‍⁠]`. -/
def isZeroWidth (c : Char) : Bool :=
  (0x200B ≤ c.toNat && c.toNat ≤ 0x200D) || c.toNat = 0x2060

/-- The exotic-space class `[  ᠎ -   　]`. -/
def isExoticSpace (c : Char) : Bool :=
  let n := c.toNat
  n = 0xA0 || n = 0x1680 || n = 0x180E || (0x2000 ≤ n && n ≤ 0x200A) ||
  n = 0x202F || n = 0x205F || n = 0x3000

/-- `s.replace("﻿", "")`. -/
def removeBom (l : Str) : Str := l.filter (fun c => c.toNat ≠ 0xFEFF)

/-- `re.sub(r"[​-‍⁠]", "", s)`. -/
def removeZeroWidth (l : Str) : Str := l.filter (fun c => ¬ isZeroWidth c)

/-- `re.sub(r"[  ᠎ -   　]", " ", s)`. -/
def collapseExoticSpaces (l : Str) : Str :=
  l.map (fun c => if isExoticSpace c then ' ' else c)

/-- `re.sub(r"\r\n?", "\n", s)`. -/
def normNewlines : Str → Str
  | [] => []
  | '\r' :: '\n' :: rest => '\n' :: normNewlines rest
  | '\r' :: rest => '\n' :: normNewlines rest
  | c :: rest => c :: normNewlines rest

/-- The leading-whitespace class of the column-0 pass:
`[ \t  ᠎ -   　]`. -/
def indentClass (c : Char) : Bool := c == ' ' || c == '\t' || isExoticSpace c

/-- True when the head of `l` is a `\s` character. -/
def headPyIsSpace : Str → Bool
  | s :: _ => pyIsSpace s
  | [] => false

/-- Lookahead alternative `#{1,6}\s` at the head of `l`. -/
def hashTok (l : Str) : Bool :=
  let hs := l.takeWhile (fun c => c == '#')
  if 1 ≤ hs.length ∧ hs.length ≤ 6 then headPyIsSpace (l.drop hs.length) else false

/-- Lookahead alternative `[-*+]\s` at the head of `l`. -/
def dashTok : Str → Bool
  | c :: s :: _ => (c == '-' || c == '*' || c == '+') && pyIsSpace s
  | _ => false

/-- Lookahead alternative `\d+\.\s` at the head of `l`. -/
def numTok (l : Str) : Bool :=
  let ds := l.takeWhile Char.isDigit
  if 1 ≤ ds.length then
    match l.drop ds.length with
    | '.' :: s :: _ => pyIsSpace s
    | _ => false
  else false

/-- Lookahead alternative `>\s` at the head of `l`. -/
def gtTok : Str → Bool
  | '>' :: s :: _ => pyIsSpace s
  | _ => false

/-- Lookahead alternative `|` at the head of `l`. -/
def pipeTok : Str → Bool
  | '|' :: _ => true
  | _ => false

/-- The full lookahead `(?=(#{1,6}\s|[-*+]\s|\d+\.\s|>\s|\|))`. -/
def tokenStart (l : Str) : Bool :=
  hashTok l || dashTok l || numTok l || gtTok l || pipeTok l

theorem length_takeWhile_le' (p : Char → Bool) (l : Str) :
    (l.takeWhile p).length ≤ l.length :=
  (List.takeWhile_prefix p).length_le

/-- Scanner for `re.sub(r"^[ \t...]+(?=(token))", "", s, flags=re.M)`:
at every line start, a nonempty run of indent-class characters followed
by a block-start token is deleted.  The Bool argument records whether the
current position is a line start.  Every step consumes at least one
character, so the fuel argument (initialised to `length + 1`) is never
exhausted; it only makes the recursion structural. -/
def stripIndentAux : Nat → Str → Bool → Str
  | 0, l, _ => l
  | _ + 1, [], _ => []
  | fuel + 1, c :: t, false => c :: stripIndentAux fuel t (c == '\n')
  | fuel + 1, c :: t, true =>
    if 1 ≤ ((c :: t).takeWhile indentClass).length ∧
        tokenStart ((c :: t).drop ((c :: t).takeWhile indentClass).length) then
      stripIndentAux fuel ((c :: t).drop ((c :: t).takeWhile indentClass).length) false
    else
      c :: stripIndentAux fuel t (c == '\n')

/-- Pass 5 of the normalizer: tokens are moved to column 0. -/
def stripIndent (l : Str) : Str := stripIndentAux (l.length + 1) l true

/-- Index of the last newline of a list, if any. -/
def lastNlIdx : Str → Option Nat
  | [] => none
  | c :: t =>
    match lastNlIdx t with
    | some j => some (j + 1)
    | none => if c = '\n' then some 0 else none

/-- Match attempt for `^\s*#{1,6}\s*$` (re.M) at a line-start position:
returns `(endsWithNewline, consumedLength)` on success.  The leading `\s*`
is forced to the maximal whitespace run (the next character must be `#`),
`#{1,6}` to the whole hash run, and the trailing `\s*` backtracks to the
largest prefix of the trailing whitespace run after which `$` holds. -/
def orphanMatch (l : Str) : Option (Bool × Nat) :=
  let n1 := (l.takeWhile pyIsSpace).length
  let hs := (l.drop n1).takeWhile (fun c => c == '#')
  let n2 := hs.length
  if 1 ≤ n2 ∧ n2 ≤ 6 then
    let w2 := (l.drop (n1 + n2)).takeWhile pyIsSpace
    let r3 := l.drop (n1 + n2 + w2.length)
    if r3 = [] then
      some ((w2.getLastD '#') == '\n', n1 + n2 + w2.length)
    else
      match lastNlIdx w2 with
      | some j => some (((w2.take j).getLastD '#') == '\n', n1 + n2 + j)
      | none => none
  else none

theorem lastNlIdx_lt (l : Str) : ∀ j, lastNlIdx l = some j → j < l.length := by
  induction l with
  | nil => intro j h; simp [lastNlIdx] at h
  | cons c t ih =>
    intro j h
    simp only [lastNlIdx] at h
    split at h
    · rename_i j2 h2
      simp only [Option.some.injEq] at h
      have := ih j2 h2
      simp only [List.length_cons]
      omega
    · split at h
      · simp only [Option.some.injEq] at h
        simp only [List.length_cons]
        omega
      · simp at h

theorem orphanMatch_bounds (l : Str) (b : Bool) (k : Nat)
    (h : orphanMatch l = some (b, k)) : 1 ≤ k ∧ k ≤ l.length := by
  simp only [orphanMatch] at h
  split at h
  · rename_i hhs
    have hw1 := length_takeWhile_le' pyIsSpace l
    have hhs2 := length_takeWhile_le' (fun c => c == '#')
      (l.drop (l.takeWhile pyIsSpace).length)
    simp only [List.length_drop] at hhs2
    have hw2 := length_takeWhile_le' pyIsSpace
      (l.drop ((l.takeWhile pyIsSpace).length +
        ((l.drop (l.takeWhile pyIsSpace).length).takeWhile (fun c => c == '#')).length))
    simp only [List.length_drop] at hw2
    split at h
    · simp only [Option.some.injEq, Prod.mk.injEq] at h
      omega
    · split at h
      · rename_i j hj
        simp only [Option.some.injEq, Prod.mk.injEq] at h
        have hjlt := lastNlIdx_lt _ j hj
        omega
      · simp at h
  · simp at h

/-- Scanner for the orphan-heading pass
`re.sub(r"^\s*#{1,6}\s*$", "", s, flags=re.M)`.  The Bool argument is the
line-start flag; after a deletion, scanning resumes right after the
consumed span. -/
def orphanAux : Nat → Str → Bool → Str
  | 0, l, _ => l
  | _ + 1, [], _ => []
  | fuel + 1, c :: t, false => c :: orphanAux fuel t (c == '\n')
  | fuel + 1, c :: t, true =>
    match orphanMatch (c :: t) with
    | some (endNl, k) => orphanAux fuel ((c :: t).drop k) endNl
    | none => c :: orphanAux fuel t (c == '\n')

/-- Pass 6 of the normalizer: orphan heading lines are removed. -/
def orphanHeadings (l : Str) : Str := orphanAux (l.length + 1) l true

/-- Consumed length of `#{1,6}\s` at the head of `l`, if it matches. -/
def headingTokLen (l : Str) : Option Nat :=
  let hs := l.takeWhile (fun c => c == '#')
  if 1 ≤ hs.length ∧ hs.length ≤ 6 then
    match l.drop hs.length with
    | s :: _ => if pyIsSpace s then some (hs.length + 1) else none
    | [] => none
  else none

/-- Scanner for `re.sub(r"([^\n])\n(#{1,6}\s)", r"\1\n\n\2", s)`: a blank
line is inserted before a heading; the whole match (including group 2) is
consumed before scanning continues. -/
def beforeHeadingAux : Nat → Str → Str
  | 0, l => l
  | _ + 1, [] => []
  | _ + 1, [c] => [c]
  | fuel + 1, c :: '\n' :: t2 =>
    if c = '\n' then '\n' :: beforeHeadingAux fuel ('\n' :: t2)
    else
      match headingTokLen t2 with
      | some k => c :: '\n' :: '\n' :: (t2.take k ++ beforeHeadingAux fuel (t2.drop k))
      | none => c :: beforeHeadingAux fuel ('\n' :: t2)
  | fuel + 1, c :: c2 :: t2 => c :: beforeHeadingAux fuel (c2 :: t2)

/-- Pass 7 of the normalizer. -/
def beforeHeading (l : Str) : Str := beforeHeadingAux (l.length + 1) l

/-- Match attempt for `(#{1,6}\s[^\n]+)\n(?!\n)` at the head of `l`:
returns the consumed length (group 1 plus the newline). -/
def afterHeadingMatch (l : Str) : Option Nat :=
  let hs := l.takeWhile (fun c => c == '#')
  if 1 ≤ hs.length ∧ hs.length ≤ 6 then
    match l.drop hs.length with
    | s :: rest =>
      if pyIsSpace s then
        let body := rest.takeWhile (fun c => c ≠ '\n')
        if 1 ≤ body.length then
          match rest.drop body.length with
          | '\n' :: '\n' :: _ => none
          | '\n' :: _ => some (hs.length + 1 + body.length + 1)
          | _ => none
        else none
      else none
    | [] => none
  else none

theorem afterHeadingMatch_pos (l : Str) (k : Nat)
    (h : afterHeadingMatch l = some k) : 1 ≤ k := by
  simp only [afterHeadingMatch] at h
  split at h
  · split at h
    · split at h
      · split at h
        · split at h
          · simp at h
          · simp at h; omega
          · simp at h
        · simp at h
      · simp at h
    · simp at h
  · simp at h

/-- Scanner for `re.sub(r"(#{1,6}\s[^\n]+)\n(?!\n)", r"\1\n\n", s)`: a
blank line is inserted after a heading line not already followed by one. -/
def afterHeadingAux : Nat → Str → Str
  | 0, l => l
  | _ + 1, [] => []
  | fuel + 1, c :: t =>
    match afterHeadingMatch (c :: t) with
    | some k => (c :: t).take k ++ '\n' :: afterHeadingAux fuel ((c :: t).drop k)
    | none => c :: afterHeadingAux fuel t

/-- Pass 8 of the normalizer. -/
def afterHeading (l : Str) : Str := afterHeadingAux (l.length + 1) l

/-- Consumed length of the list-marker alternation `[-*+]\s|\d+\.\s` at
the head of `l`, if it matches (`\s` may itself be a newline). -/
def listMarkerLen (l : Str) : Option Nat :=
  match l with
  | c :: s :: _ =>
    if c == '-' || c == '*' || c == '+' then
      if pyIsSpace s then some 2 else none
    else
      let ds := l.takeWhile Char.isDigit
      if 1 ≤ ds.length then
        match l.drop ds.length with
        | '.' :: s2 :: _ => if pyIsSpace s2 then some (ds.length + 2) else none
        | _ => none
      else none
  | _ => none

/-- Scanner for `re.sub(r"([^\n])\n([-*+]\s|\d+\.\s)", r"\1\n\n\2", s)`:
a blank line is inserted before a list item; the whole match (including
the marker) is consumed before scanning continues. -/
def beforeListAux : Nat → Str → Str
  | 0, l => l
  | _ + 1, [] => []
  | _ + 1, [c] => [c]
  | fuel + 1, c :: '\n' :: t2 =>
    if c = '\n' then '\n' :: beforeListAux fuel ('\n' :: t2)
    else
      match listMarkerLen t2 with
      | some k => c :: '\n' :: '\n' :: (t2.take k ++ beforeListAux fuel (t2.drop k))
      | none => c :: beforeListAux fuel ('\n' :: t2)
  | fuel + 1, c :: c2 :: t2 => c :: beforeListAux fuel (c2 :: t2)

/-- Pass 9 of the normalizer. -/
def beforeList (l : Str) : Str := beforeListAux (l.length + 1) l

/-- Consumed length of one list item `(?:[-*+]\s|\d+\.\s).*` at the head
of `l`: the marker followed by the rest of the line. -/
def itemLen (l : Str) : Option Nat :=
  match listMarkerLen l with
  | some k => some (k + ((l.drop k).takeWhile (fun c => c ≠ '\n')).length)
  | none => none

theorem listMarkerLen_bounds (l : Str) (k : Nat) (h : listMarkerLen l = some k) :
    2 ≤ k ∧ k ≤ l.length := by
  match l with
  | [] => simp [listMarkerLen] at h
  | [c] => simp [listMarkerLen] at h
  | c :: s :: t =>
    simp only [listMarkerLen] at h
    split at h
    · split at h
      · simp at h
        simp [← h]
      · simp at h
    · split at h
      · split at h
        · rename_i heq
          split at h
          · simp at h
            have hds := length_takeWhile_le' Char.isDigit (c :: s :: t)
            have hlen : ((c :: s :: t).drop
                ((c :: s :: t).takeWhile Char.isDigit).length).length ≥ 2 := by
              rw [heq]; simp
            simp only [List.length_drop] at hlen
            omega
          · simp at h
        · simp at h
      · simp at h

theorem itemLen_bounds (l : Str) (k : Nat) (h : itemLen l = some k) :
    2 ≤ k ∧ k ≤ l.length := by
  simp only [itemLen] at h
  split at h
  · rename_i k0 hk0
    simp only [Option.some.injEq] at h
    subst h
    have h1 := listMarkerLen_bounds l k0 hk0
    have h2 := length_takeWhile_le' (fun c => decide (c ≠ '\n')) (l.drop k0)
    simp only [List.length_drop] at h2
    omega
  · simp at h

/-- The greedy chain of continuation items `(?:\n(?:[-*+]\s|\d+\.\s).*)*`
starting at `l`: the consumed length of each successive `\n`-plus-item
segment. -/
def contChainAux : Nat → Str → List Nat
  | 0, _ => []
  | fuel + 1, l =>
    match l with
    | '\n' :: t =>
      match itemLen t with
      | some k => (k + 1) :: contChainAux fuel (t.drop k)
      | none => []
    | _ => []

/-- The greedy continuation chain, with enough fuel for the whole list. -/
def contChain (l : Str) : List Nat := contChainAux (l.length + 1) l

/-- The final `\n([^\n-])` of the list-block pattern, at the head of `l`. -/
def tailOk : Str → Bool
  | '\n' :: g :: _ => g != '\n' && g != '-'
  | _ => false

/-- Backtracking over the continuation chain: keep the longest prefix of
the chain after which `\n([^\n-])` matches; returns the consumed length
of that prefix. -/
def pickBack (l : Str) : List Nat → Option Nat
  | [] => if tailOk l then some 0 else none
  | c :: cs =>
    match pickBack (l.drop c) cs with
    | some e => some (c + e)
    | none => if tailOk l then some 0 else none

/-- One list block `(?:[-*+]\s|\d+\.\s).*(?:\n(?:[-*+]\s|\d+\.\s).*)*`
followed (after backtracking) by a position where `\n([^\n-])` matches:
returns the block length. -/
def itemChainMatch (m : Str) : Option Nat :=
  match itemLen m with
  | some k1 => (pickBack (m.drop k1) (contChain (m.drop k1))).map (fun e => k1 + e)
  | none => none

/-- Match attempt for the whole list-block pattern
`((?:^|\n)(?:...block...))\n([^\n-])` at the head of `l` (no re.M: `^` is
the start of the string, available only when `first` is true; the `^`
alternative is tried before the `\n` alternative).  Returns the length of
group 1. -/
def afterListMatch (first : Bool) (l : Str) : Option Nat :=
  match (if first then itemChainMatch l else none) with
  | some g => some g
  | none =>
    match l with
    | '\n' :: t => (itemChainMatch t).map (fun g => g + 1)
    | _ => none

/-- Scanner for
`re.sub(r"((?:^|\n)(?:[-*+]\s|\d+\.\s).*(?:\n(?:[-*+]\s|\d+\.\s).*)*)\n([^\n-])", r"\1\n\n\2", s)`:
a blank line is inserted after a list block. -/
def afterListAux : Nat → Str → Bool → Str
  | 0, l, _ => l
  | _ + 1, [], _ => []
  | fuel + 1, c :: t, first =>
    match afterListMatch first (c :: t) with
    | some g =>
      (c :: t).take g ++ '\n' :: ((c :: t).drop g).take 2 ++
        afterListAux fuel ((c :: t).drop (g + 2)) false
    | none => c :: afterListAux fuel t false

/-- Pass 10 of the normalizer. -/
def afterListBlocks (l : Str) : Str := afterListAux (l.length + 1) l true

/-- `re.sub(r"\n{3,}", "\n\n", s)`: runs of three or more newlines are
collapsed to exactly two. -/
def collapseNlAux : Nat → Str → Str
  | 0, l => l
  | _ + 1, [] => []
  | fuel + 1, c :: t =>
    if c = '\n' then
      if 2 ≤ (t.takeWhile (fun c2 => c2 == '\n')).length then
        '\n' :: '\n' :: collapseNlAux fuel (t.drop (t.takeWhile (fun c2 => c2 == '\n')).length)
      else '\n' :: collapseNlAux fuel t
    else c :: collapseNlAux fuel t

/-- Pass 11 of the normalizer, with enough fuel for the whole list. -/
def collapseNl (l : Str) : Str := collapseNlAux (l.length + 1) l

/-- `normalize_markdown_final` from `app/routers/upload.py`: the full
chain of passes, ending with `.strip()`; empty input maps to empty. -/
def normalize_markdown_final (md : Str) : Str :=
  if md = [] then []
  else
    pyStrip (collapseNl (afterListBlocks (beforeList (afterHeading (beforeHeading
      (orphanHeadings (stripIndent (normNewlines (collapseExoticSpaces
        (removeZeroWidth (removeBom md)))))))))))

/-!
Generator responses are parsed with `json.loads` and then validated
(pydantic models in `app/schemas.py`, explicit checks in
`app/services/parse.py`, ad-hoc extraction in `infer_outline`).  A
response is modelled as `Option Json`: `none` when `json.loads` raises,
`some j` when it returns the JSON value `j`.
-/

/-- A parsed JSON value (the possible results of `json.loads`).  Object
field lists are as produced by `json.loads`, so keys are distinct. -/
inductive Json where
  | null
  | bool (b : Bool)
  | num (n : Int)
  | str (s : Str)
  | arr (elements : List Json)
  | obj (fields : List (Str × Json))

/-- `dict.get`-style lookup in an object field list. -/
def lookupField : List (Str × Json) → Str → Option Json
  | [], _ => none
  | (k, v) :: t, key => if k = key then some v else lookupField t key

/-- Python truthiness of a JSON value. -/
def Json.truthy : Json → Bool
  | .null => false
  | .bool b => b
  | .num n => n != 0
  | .str s => !s.isEmpty
  | .arr l => !l.isEmpty
  | .obj f => !f.isEmpty

/-!
`infer_outline` (`app/routers/upload.py`, lines 78-108): the `try` block
computes `[s.get("title","").strip() for s in data.get("sections",[]) if
s.get("title")]`; any exception (non-dict data, non-iterable or non-dict
elements, truthy non-string titles) falls through to the fixed fallback
outline, as does an empty list after the length-3 filter.
-/

/-- The per-element walk of the title comprehension.  An element that is
not a dict raises (`s.get`), a truthy non-string title raises
(`.strip()`), a missing or falsy title is filtered out. -/
def elemsTitles : List Json → Except Unit (List Str)
  | [] => .ok []
  | .obj fs :: rest =>
    match lookupField fs ("title".toList) with
    | some v =>
      if v.truthy then
        match v with
        | .str s => do
          let r ← elemsTitles rest
          .ok (pyStrip s :: r)
        | _ => .error ()
      else elemsTitles rest
    | none => elemsTitles rest
  | _ :: _ => .error ()

/-- `data.get("sections", [])` followed by the comprehension: `data` must
be a dict; a missing key defaults to `[]`; iterating an empty dict or
empty string yields nothing, while any other non-list value raises. -/
def extractTitles : Json → Except Unit (List Str)
  | .obj fs =>
    match lookupField fs ("sections".toList) with
    | none => .ok []
    | some (.arr elements) => elemsTitles elements
    | some (.obj f2) => if f2.isEmpty then .ok [] else .error ()
    | some (.str s) => if s.isEmpty then .ok [] else .error ()
    | some _ => .error ()
  | _ => .error ()

/-- The fixed generic fallback outline of `infer_outline`. -/
def fallbackOutline : List Str :=
  [("Introduction / Overview".toList),
   ("Key Definitions and Concepts".toList),
   ("Core Ideas and Intuition".toList),
   ("Detailed Explanations and Worked Examples".toList),
   ("Methods / Algorithms / Procedures".toList),
   ("Parameters, Tuning, and Trade-offs".toList),
   ("Common Pitfalls and Edge Cases".toList),
   ("Rules of Thumb and Formulas".toList),
   ("Applications / Case Studies".toList),
   ("Summary and Review Points".toList),
   ("Practice Questions / Self-Check".toList)]

/-- `infer_outline` on the generator response: parse failure or any
exception in the extraction yields the fallback, the extracted titles
are filtered to length ≥ 3 and truncated to 14, and an empty result also
yields the fallback. -/
def infer_outline (resp : Option Json) : List Str :=
  match resp with
  | none => fallbackOutline
  | some j =>
    match extractTitles j with
    | .error _ => fallbackOutline
    | .ok ts =>
      let ts2 := (ts.filter (fun t => 3 ≤ t.length)).take 14
      if ts2.isEmpty then fallbackOutline else ts2

/-!
`parse_cards` / `parse_quiz` (`app/services/parse.py`) validate the
pydantic models of `app/schemas.py`.  `Card.front`/`Card.back` are
required strings with no emptiness constraint; `Card.type` defaults to
"qa" and `Card.source` to None.  `parse_quiz` additionally walks the
questions rejecting choice counts ≠ 4 and answer indices outside 0..3.
-/

/-- `Card` from `app/schemas.py`. -/
structure Card where
  type : Option Str
  front : Str
  back : Str
  src : Option Str
deriving DecidableEq

/-- Pydantic validation of one card object. -/
def parseCard (j : Json) : Except Unit Card :=
  match j with
  | .obj fs =>
    match lookupField fs ("front".toList), lookupField fs ("back".toList) with
    | some (.str f), some (.str b) =>
      let ty : Except Unit (Option Str) :=
        match lookupField fs ("type".toList) with
        | none => .ok (some ("qa".toList))
        | some (.str s) => .ok (some s)
        | some .null => .ok none
        | some _ => .error ()
      let src : Except Unit (Option Str) :=
        match lookupField fs ("source".toList) with
        | none => .ok none
        | some (.str s) => .ok (some s)
        | some .null => .ok none
        | some _ => .error ()
      do
        let t ← ty
        let so ← src
        .ok ⟨t, f, b, so⟩
    | _, _ => .error ()
  | _ => .error ()

/-- `parse_cards`: JSON-parse the (cleaned) response and validate it as a
`CardSet`; any failure is an exception. -/
def parse_cards (resp : Option Json) : Except Unit (List Card) :=
  match resp with
  | some (.obj fs) =>
    match lookupField fs ("cards".toList) with
    | some (.arr elements) => elements.mapM parseCard
    | _ => .error ()
  | _ => .error ()

/-- `MCQ` from `app/schemas.py`. -/
structure MCQ where
  question : Str
  choices : List Str
  answer_index : Int
  explanation : Str
  src : Option Str
deriving DecidableEq

/-- Pydantic validation of a list of strings. -/
def parseStrList : List Json → Except Unit (List Str)
  | [] => .ok []
  | .str s :: rest => do
    let r ← parseStrList rest
    .ok (s :: r)
  | _ :: _ => .error ()

/-- Pydantic validation of one MCQ object. -/
def parseMCQ (j : Json) : Except Unit MCQ :=
  match j with
  | .obj fs =>
    match lookupField fs ("question".toList), lookupField fs ("choices".toList),
        lookupField fs ("answer_index".toList), lookupField fs ("explanation".toList) with
    | some (.str q), some (.arr cs), some (.num ai), some (.str ex) =>
      let src : Except Unit (Option Str) :=
        match lookupField fs ("source".toList) with
        | none => .ok none
        | some (.str s) => .ok (some s)
        | some .null => .ok none
        | some _ => .error ()
      do
        let cl ← parseStrList cs
        let so ← src
        .ok ⟨q, cl, ai, ex, so⟩
    | _, _, _, _ => .error ()
  | _ => .error ()

/-- The pydantic stage of `parse_quiz`: `QuizSet.model_validate`. -/
def pydanticQuiz (resp : Option Json) : Except Unit (List MCQ) :=
  match resp with
  | some (.obj fs) =>
    match lookupField fs ("questions".toList) with
    | some (.arr elements) => elements.mapM parseMCQ
    | _ => .error ()
  | _ => .error ()

/-- The explicit per-question checks of `parse_quiz`. -/
def checkMCQ (q : MCQ) : Bool :=
  q.choices.length == 4 &&
  (q.answer_index == 0 || q.answer_index == 1 || q.answer_index == 2 ||
   q.answer_index == 3)

/-- `parse_quiz`: pydantic validation followed by the explicit loop that
raises on any MCQ with choice count ≠ 4 or answer index outside 0..3. -/
def parse_quiz (resp : Option Json) : Except Unit (List MCQ) :=
  match pydanticQuiz resp with
  | .error _ => .error ()
  | .ok qs => if qs.all checkMCQ then .ok qs else .error ()

/-!
The repair-retry shape shared by the card stage of `upload`
(`app/routers/upload.py`, lines 246-260) and the quiz route
(`app/routers/quiz.py`, lines 56-66): parse the first response; on any
exception make exactly one repair call and parse its response, letting a
second failure propagate.  `r1`/`r2` are the generator's first and
repaired responses; the second component counts generator calls made for
the stage.
-/

/-- The card stage: first generation call, then at most one repair. -/
def cardStage (r1 r2 : Option Json) : Except Unit (List Card) × Nat :=
  match parse_cards r1 with
  | .ok cs => (.ok cs, 1)
  | .error _ => (parse_cards r2, 2)

/-- The quiz stage: first generation call, then at most one repair. -/
def quizStage (r1 r2 : Option Json) : Except Unit (List MCQ) × Nat :=
  match parse_quiz r1 with
  | .ok qs => (.ok qs, 1)
  | .error _ => (parse_quiz r2, 2)

/-!
`build_bullets_from_pdf` (`app/services/pdf.py`, lines 17-46).  `pages`
is the output of `extract_pages_text` (one string per page, in page
order), `cached` the `read_bullets` result, `gen` the generation
collaborator (response as a function of the page index and the submitted
1500-character snippet).  `asyncio.gather` returns results in task order,
so aggregation is modelled in page order; the second component counts
generation calls and the third records the `save_bullets` write.
-/

/-- The cached record `{joined, bullets}`. -/
structure BulletDigest where
  joined : Str
  bullets : List Str
deriving DecidableEq

/-- Errors raised by `build_bullets_from_pdf` before generation. -/
inductive PdfError where
  | noExtractableText
deriving DecidableEq

/-- The result of one page task: `f"Slide {idx}:\n{b}"` where `b` is the
generator's response to the 1500-character page snippet. -/
def slideBlock (gen : Nat → Str → Str) (idx : Nat) (txt : Str) : Str :=
  ("Slide ".toList) ++ (toString idx).toList ++ (":\n".toList) ++ gen idx (txt.take 1500)

/-- `enumerate(pages[:MAX_PAGES], start=1)`: the page tasks created by the
fan-out. -/
def pageTasks (pages : List Str) (maxPages : Nat) : List (Nat × Str) :=
  List.enumFrom 1 (pages.take maxPages)

/-- `build_bullets_from_pdf`: cache hit short-circuits; the aggregated
emptiness check raises before any task is created; otherwise the first
`maxPages` pages are enumerated from 1, empty pages are skipped, and the
blocks are joined with a blank line (or the sentinel when no block was
produced) and written to the cache. -/
def build_bullets_from_pdf (cached : Option BulletDigest) (pages : List Str)
    (maxPages : Nat) (gen : Nat → Str → Str) :
    Except PdfError BulletDigest × Nat × Option BulletDigest :=
  match cached with
  | some d => (.ok d, 0, none)
  | none =>
    if pages.all (fun p => (pyStrip p).isEmpty) then
      (.error .noExtractableText, 0, none)
    else
      let results := (pageTasks pages maxPages).filterMap (fun it =>
        if it.2.isEmpty then none else some (slideBlock gen it.1 it.2))
      let calls := ((pageTasks pages maxPages).filter (fun it => !it.2.isEmpty)).length
      let joined := if results.isEmpty then ("No text found.".toList)
                    else joinSep ('\n' :: '\n' :: []) results
      (.ok ⟨joined, results⟩, calls, some ⟨joined, results⟩)

/-!
The bounded-concurrency page fan-out of `build_bullets_from_pdf`
(lines 26-42): every page task runs `async with sem: await llm(...)`
against `sem = asyncio.Semaphore(settings.CONCURRENCY)`.  The cooperative
scheduler is modelled as an interleaving transition system over the task
phases: a task acquires the semaphore only while fewer than `K` holders
exist (the semaphore value is `K` minus the number of holders), and
releases it when its call completes.
-/

/-- Phase of one page task: waiting on the semaphore, holding a permit
with its generation call in flight, or completed. -/
inductive TaskPhase where
  | pend
  | run
  | done
deriving DecidableEq

/-- Number of generation calls in flight. -/
def inFlight : List TaskPhase → Nat
  | [] => 0
  | .run :: t => inFlight t + 1
  | _ :: t => inFlight t

/-- One scheduler step with permit count `K`: `acquire` admits a pending
task only when a permit is free; `finish` completes an in-flight call and
releases its permit. -/
inductive SemStep (K : Nat) : List TaskPhase → List TaskPhase → Prop where
  | acquire (ts : List TaskPhase) (i : Nat) (hi : ts[i]? = some .pend)
      (hcap : inFlight ts < K) : SemStep K ts (ts.set i .run)
  | finish (ts : List TaskPhase) (i : Nat) (hi : ts[i]? = some .run) :
      SemStep K ts (ts.set i .done)

/-- States reachable from `n` pending page tasks issued together. -/
def SemReach (K n : Nat) (ts : List TaskPhase) : Prop :=
  Relation.ReflTransGen (SemStep K) (List.replicate n .pend) ts

/-! Claim theorems. -/

/-- C1 (counterexample): the markdown normalizer is not idempotent.  At
the input "a\n-\n-\na" the before-list pass consumes the second dash line
as part of its match (its `\s` is the newline), so only the first gap is
widened; the second application widens the next one. -/
theorem normalize_markdown_final_not_idempotent :
    normalize_markdown_final (normalize_markdown_final ("a\n-\n-\na".toList)) ≠
      normalize_markdown_final ("a\n-\n-\na".toList) := by decide

/-- C1 (amended): the normalizer maps the empty string to the empty
string, but it is not idempotent in general: at "a\n-\n-\na" the first
application yields "a\n\n-\n-\n\na", the second "a\n\n-\n\n-\n\na", and
only the third application reaches a fixed point. -/
theorem normalize_markdown_final_empty_not_idempotent :
    normalize_markdown_final [] = [] ∧
    normalize_markdown_final ("a\n-\n-\na".toList) = ("a\n\n-\n-\n\na".toList) ∧
    normalize_markdown_final ("a\n\n-\n-\n\na".toList) = ("a\n\n-\n\n-\n\na".toList) ∧
    normalize_markdown_final ("a\n\n-\n\n-\n\na".toList) = ("a\n\n-\n\n-\n\na".toList) :=
  ⟨rfl, by decide, by decide, by decide⟩

/-- C4: for every generator response (including parse failures,
represented by `none`, and arbitrary malformed JSON values),
`infer_outline` returns between 1 and 14 titles; on parse failure, and
likewise whenever the extracted titles are all discarded by the
length-3 filter, it returns the fixed generic fallback outline, which
has exactly 11 entries. -/
theorem infer_outline_spec :
    (∀ r : Option Json,
      1 ≤ (infer_outline r).length ∧ (infer_outline r).length ≤ 14) ∧
    infer_outline none = fallbackOutline ∧
    fallbackOutline.length = 11 ∧
    (∀ (j : Json) (ts : List Str), extractTitles j = .ok ts →
      ts.filter (fun t => 3 ≤ t.length) = [] →
      infer_outline (some j) = fallbackOutline) := by
  have hlen : fallbackOutline.length = 11 := rfl
  refine ⟨?_, rfl, hlen, ?_⟩
  · intro r
    cases r with
    | none => simp [infer_outline, hlen]
    | some j =>
      simp only [infer_outline]
      cases hE : extractTitles j with
      | error e => simp [hlen]
      | ok ts =>
        by_cases hts : ((ts.filter (fun t => 3 ≤ t.length)).take 14).isEmpty = true
        · simp [hts, hlen]
        · simp only [if_neg hts]
          constructor
          · have hne : (ts.filter (fun t => 3 ≤ t.length)).take 14 ≠ [] := by
              intro hnil
              exact hts (by simp [hnil])
            have := List.length_pos.mpr hne
            omega
          · exact List.length_take_le _ _
  · intro j ts hE hf
    simp [infer_outline, hE, hf]

/-- C4 witness: the bounds hold at the malformed JSON response `3`, the
parse-failure fallback holds at `none`, and the empty-after-filter
fallback holds at a response that parses to the single title "ab", which
the length-3 filter discards. -/
theorem infer_outline_spec_witness :
    (1 ≤ (infer_outline (some (Json.num 3))).length ∧
      (infer_outline (some (Json.num 3))).length ≤ 14) ∧
    infer_outline none = fallbackOutline ∧
    extractTitles (.obj [(("sections".toList),
      .arr [.obj [(("title".toList), .str ("ab".toList))]])]) =
      .ok [("ab".toList)] ∧
    infer_outline (some (.obj [(("sections".toList),
      .arr [.obj [(("title".toList), .str ("ab".toList))]])])) = fallbackOutline :=
  ⟨infer_outline_spec.1 (some (Json.num 3)), infer_outline_spec.2.1, rfl,
   infer_outline_spec.2.2.2 _ [("ab".toList)] rfl (by decide)⟩

/-- A generator response is schema-bad for the quiz stage when it fails
JSON parsing or pydantic validation, or validates to a question list
containing an MCQ with choice count ≠ 4 or answer index outside 0..3. -/
def badQuizResp (r : Option Json) : Prop :=
  pydanticQuiz r = .error () ∨
  ∃ qs, pydanticQuiz r = .ok qs ∧ ∃ q ∈ qs,
    (q.choices.length ≠ 4 ∨
      (q.answer_index ≠ 0 ∧ q.answer_index ≠ 1 ∧ q.answer_index ≠ 2 ∧
       q.answer_index ≠ 3))

theorem parse_quiz_of_bad (r : Option Json) (h : badQuizResp r) :
    parse_quiz r = .error () := by
  rcases h with h | ⟨qs, hok, q, hmem, hbad⟩
  · simp [parse_quiz, h]
  · have hq : checkMCQ q = false := by
      rcases hbad with h4 | ⟨i0, i1, i2, i3⟩
      · simp [checkMCQ, h4]
      · simp [checkMCQ, i0, i1, i2, i3]
    have hall : qs.all checkMCQ = false :=
      List.all_eq_false.mpr ⟨q, hmem, by simp [hq]⟩
    simp [parse_quiz, hok, hall]

/-- C5: when both the first quiz response and the single repaired
response are schema-bad (an MCQ with choice count ≠ 4 or answer index
outside 0..3, or a parse/validation failure), the quiz stage fails —
`SchemaRepairExhaustedError` in the spec's taxonomy, a propagated
validation exception in the code — after exactly 2 generator calls, with
no further retries. -/
theorem quizStage_repair_exhausted (r1 r2 : Option Json)
    (h1 : badQuizResp r1) (h2 : badQuizResp r2) :
    quizStage r1 r2 = (.error (), 2) := by
  have e1 := parse_quiz_of_bad r1 h1
  have e2 := parse_quiz_of_bad r2 h2
  simp [quizStage, e1, e2]

/-- A quiz response whose single MCQ has only 3 choices. -/
def threeChoiceQuiz : Option Json :=
  some (.obj [(("questions".toList),
    .arr [.obj [(("question".toList), .str ("q".toList)),
                (("choices".toList), .arr [.str ("a".toList), .str ("b".toList),
                                           .str ("c".toList)]),
                (("answer_index".toList), .num 0),
                (("explanation".toList), .str ("e".toList))]])])

/-- C5 witness: both attempts return the 3-choice MCQ response, and the
stage fails after exactly 2 calls. -/
theorem quizStage_repair_exhausted_witness :
    badQuizResp threeChoiceQuiz ∧
    quizStage threeChoiceQuiz threeChoiceQuiz = (.error (), 2) := by
  have hbad : badQuizResp threeChoiceQuiz := by
    refine Or.inr ⟨[⟨("q".toList), [("a".toList), ("b".toList), ("c".toList)], 0,
      ("e".toList), none⟩], rfl, ?_⟩
    exact ⟨⟨("q".toList), [("a".toList), ("b".toList), ("c".toList)], 0,
      ("e".toList), none⟩, by simp, Or.inl (by decide)⟩
  exact ⟨hbad, quizStage_repair_exhausted _ _ hbad hbad⟩

/-- A card-set response with one card whose front and back are both
empty strings. -/
def emptyFieldCards : Option Json :=
  some (.obj [(("cards".toList),
    .arr [.obj [(("front".toList), .str []), (("back".toList), .str [])]])])

/-- C6 (counterexample): card-set validation accepts a card whose front
and back are both empty strings — the pydantic model only requires the
fields to be present strings — and it also accepts an empty card list,
so a returned CardSet need not have ≥ 1 card. -/
theorem parse_cards_accepts_empty :
    parse_cards emptyFieldCards = .ok [⟨some ("qa".toList), [], [], none⟩] ∧
    parse_cards (some (.obj [(("cards".toList), .arr [])])) = .ok [] :=
  ⟨rfl, rfl⟩

/-- A card-set response built from the given front/back texts. -/
def mkCardsJson (l : List (Str × Str)) : Json :=
  .obj [(("cards".toList),
    .arr (l.map (fun fb => .obj [(("front".toList), .str fb.1),
                                 (("back".toList), .str fb.2)])))]

theorem parseCard_requires_front_back (fields : List (Str × Json))
    (h : (∀ s, lookupField fields ("front".toList) ≠ some (.str s)) ∨
         (∀ s, lookupField fields ("back".toList) ≠ some (.str s))) :
    parseCard (.obj fields) = .error () := by
  cases hf : lookupField fields (['f', 'r', 'o', 'n', 't'] : Str) with
  | none => simp [parseCard, hf]
  | some v =>
    cases v with
    | str s =>
      cases hb : lookupField fields (['b', 'a', 'c', 'k'] : Str) with
      | none => simp [parseCard, hf, hb]
      | some w =>
        cases w with
        | str s2 =>
          rcases h with h | h
          · exact absurd hf (h s)
          · exact absurd hb (h s2)
        | null => simp [parseCard, hf, hb]
        | bool b => simp [parseCard, hf, hb]
        | num n => simp [parseCard, hf, hb]
        | arr l => simp [parseCard, hf, hb]
        | obj f => simp [parseCard, hf, hb]
    | null => simp [parseCard, hf]
    | bool b => simp [parseCard, hf]
    | num n => simp [parseCard, hf]
    | arr l => simp [parseCard, hf]
    | obj f => simp [parseCard, hf]

theorem mapM_parseCard_error (cards : List Json)
    (h : ∃ e ∈ cards, parseCard e = .error ()) :
    cards.mapM parseCard = .error () := by
  induction cards with
  | nil => simp at h
  | cons e es ih =>
    rcases h with ⟨e1, he1, herr⟩
    rcases List.mem_cons.mp he1 with rfl | hmem
    · rw [List.mapM_cons, herr]
      rfl
    · cases hpe : parseCard e with
      | error u =>
        cases u
        rw [List.mapM_cons, hpe]
        rfl
      | ok c =>
        have htail := ih ⟨e1, hmem, herr⟩
        rw [List.mapM_cons, hpe, htail]
        rfl

/-- C6 (amended): card-set validation requires each card's `front` and
`back` to be present as strings — a card list containing an object whose
front or back is missing or not a string is rejected — but it checks
neither non-emptiness nor card count: every list of cards with string
front/back fields, including empty strings and the empty list, is
accepted verbatim, so a returned CardSet may contain cards with empty
front or back and need not contain at least 1 card. -/
theorem parse_cards_validation :
    (∀ l : List (Str × Str),
      parse_cards (some (mkCardsJson l)) =
        .ok (l.map (fun fb => ⟨some ("qa".toList), fb.1, fb.2, none⟩))) ∧
    (∀ (cards : List Json) (fields : List (Str × Json)),
      Json.obj fields ∈ cards →
      ((∀ s, lookupField fields ("front".toList) ≠ some (.str s)) ∨
       (∀ s, lookupField fields ("back".toList) ≠ some (.str s))) →
      parse_cards (some (.obj [(("cards".toList), .arr cards)])) = .error ()) := by
  constructor
  · intro l
    have main : ∀ l : List (Str × Str),
        (l.map (fun fb => Json.obj [(("front".toList), Json.str fb.1),
          (("back".toList), Json.str fb.2)])).mapM parseCard =
          .ok (l.map (fun fb => (⟨some ("qa".toList), fb.1, fb.2, none⟩ : Card))) := by
      intro l
      induction l with
      | nil => rfl
      | cons fb l ih =>
        simp only [List.map_cons, List.mapM_cons, ih]
        rfl
    exact main l
  · intro cards fields hmem hbad
    have hcard := parseCard_requires_front_back fields hbad
    have herr := mapM_parseCard_error cards ⟨.obj fields, hmem, hcard⟩
    rw [show parse_cards (some (.obj [(("cards".toList), .arr cards)])) =
        cards.mapM parseCard from rfl, herr]

/-- C7: when the first card response fails to parse/validate and the
single repaired response is valid, the card stage returns the CardSet
parsed from the second response, after exactly one repair attempt and
exactly 2 generator calls. -/
theorem cardStage_repaired (r1 r2 : Option Json) (cs : List Card)
    (h1 : parse_cards r1 = .error ()) (h2 : parse_cards r2 = .ok cs) :
    cardStage r1 r2 = (.ok cs, 2) := by
  simp [cardStage, h1, h2]

/-- C7 witness: an unparseable first response (`none`, i.e. invalid
JSON) followed by a valid one-card repaired response. -/
theorem cardStage_repaired_witness :
    parse_cards none = .error () ∧
    parse_cards (some (mkCardsJson [(("f".toList), ("b".toList))])) =
      .ok [⟨some ("qa".toList), ("f".toList), ("b".toList), none⟩] ∧
    cardStage none (some (mkCardsJson [(("f".toList), ("b".toList))])) =
      (.ok [⟨some ("qa".toList), ("f".toList), ("b".toList), none⟩], 2) :=
  ⟨rfl, rfl, cardStage_repaired _ _ _ rfl rfl⟩

/-- C3: for a non-cached document, the no-extractable-text error is
raised exactly when every page's stripped text is empty — the check
aggregates over all pages at once — and in that case the whole run makes
zero generation calls and writes nothing to the cache. -/
theorem build_bullets_no_text (pages : List Str) (maxPages : Nat)
    (gen : Nat → Str → Str) :
    ((∀ p ∈ pages, pyStrip p = []) →
      build_bullets_from_pdf none pages maxPages gen =
        (.error .noExtractableText, 0, none)) ∧
    ((build_bullets_from_pdf none pages maxPages gen).1 =
        .error .noExtractableText → ∀ p ∈ pages, pyStrip p = []) := by
  by_cases hall : pages.all (fun p => (pyStrip p).isEmpty) = true
  · have h : ∀ p ∈ pages, pyStrip p = [] := by
      intro p hp
      have := List.all_eq_true.mp hall p hp
      simpa [List.isEmpty_iff] using this
    exact ⟨fun _ => by simp [build_bullets_from_pdf, hall], fun _ => h⟩
  · have hfalse : pages.all (fun p => (pyStrip p).isEmpty) = false := by
      simpa using hall
    constructor
    · intro h
      exfalso
      apply hall
      apply List.all_eq_true.mpr
      intro p hp
      simp [List.isEmpty_iff, h p hp]
    · intro herr
      exfalso
      simp [build_bullets_from_pdf, hfalse] at herr

/-- C3 witness: two pages that are whitespace-only after extraction. -/
theorem build_bullets_no_text_witness :
    (∀ p ∈ [(" ".toList), ([] : Str)], pyStrip p = []) ∧
    build_bullets_from_pdf none [(" ".toList), ([] : Str)] 30 (fun _ _ => []) =
      (.error .noExtractableText, 0, none) :=
  ⟨by decide,
   (build_bullets_no_text [(" ".toList), ([] : Str)] 30 (fun _ _ => [])).1 (by decide)⟩

/-- C10 (implicit): when at least one page of the non-cached document has
non-empty stripped text but every page among the first `maxPages` is
empty, no error is raised: the run returns the sentinel joined text
"No text found." with an empty bullets list, makes zero generation
calls, and caches that sentinel digest, so downstream generation runs on
the sentinel instead of failing. -/
theorem build_bullets_sentinel (pages : List Str) (maxPages : Nat)
    (gen : Nat → Str → Str)
    (h1 : ∀ p ∈ pages.take maxPages, p = ([] : Str))
    (h2 : ∃ p ∈ pages, pyStrip p ≠ []) :
    build_bullets_from_pdf none pages maxPages gen =
      (.ok ⟨("No text found.".toList), []⟩, 0,
        some ⟨("No text found.".toList), []⟩) := by
  have hall : pages.all (fun p => (pyStrip p).isEmpty) = false := by
    rcases h2 with ⟨p, hp, hps⟩
    exact List.all_eq_false.mpr ⟨p, hp, by simpa [List.isEmpty_iff] using hps⟩
  have hsnd : ∀ it ∈ pageTasks pages maxPages, it.2 = ([] : Str) := by
    intro it hit
    have : it.2 ∈ pages.take maxPages := by
      have := List.mem_map_of_mem Prod.snd hit
      rwa [pageTasks, List.enumFrom_map_snd] at this
    exact h1 _ this
  have hres : (pageTasks pages maxPages).filterMap
      (fun it => if it.2.isEmpty then none
                 else some (slideBlock gen it.1 it.2)) = [] := by
    apply List.filterMap_eq_nil_iff.mpr
    intro it hit
    simp [hsnd it hit]
  have hcal : (pageTasks pages maxPages).filter (fun it => !it.2.isEmpty) = [] := by
    apply List.filter_eq_nil_iff.mpr
    intro it hit
    simp [hsnd it hit]
  simp only [build_bullets_from_pdf, hall, Bool.false_eq_true, if_false, hres, hcal]
  rfl

/-- C10 witness: a document whose first page is empty while the second
page (beyond the one-page cap) carries text. -/
theorem build_bullets_sentinel_witness :
    (∀ p ∈ ([([] : Str), ("x".toList)].take 1), p = ([] : Str)) ∧
    (∃ p ∈ [([] : Str), ("x".toList)], pyStrip p ≠ []) ∧
    build_bullets_from_pdf none [([] : Str), ("x".toList)] 1 (fun _ _ => []) =
      (.ok ⟨("No text found.".toList), []⟩, 0,
        some ⟨("No text found.".toList), []⟩) :=
  ⟨by decide, by decide,
   build_bullets_sentinel [([] : Str), ("x".toList)] 1 (fun _ _ => [])
     (by decide) (by decide)⟩

theorem filterMap_ite_eq_map_filter {α β : Type} (q : α → Bool) (f : α → β)
    (l : List α) :
    l.filterMap (fun a => if q a then none else some (f a)) =
      (l.filter (fun a => !q a)).map f := by
  induction l with
  | nil => rfl
  | cons a l ih =>
    cases hq : q a <;> simp [List.filterMap_cons, List.filter_cons, hq, ih]

theorem le_fst_of_mem_enumFrom {α : Type} :
    ∀ (n : Nat) (l : List α) (p : Nat × α), p ∈ List.enumFrom n l → n ≤ p.1 := by
  intro n l
  induction l generalizing n with
  | nil => intro p hp; simp [List.enumFrom] at hp
  | cons x xs ih =>
    intro p hp
    simp only [List.enumFrom, List.mem_cons] at hp
    rcases hp with h | h
    · simp [h]
    · have := ih (n + 1) p h
      omega

theorem pairwise_fst_enumFrom {α : Type} (n : Nat) (l : List α) :
    List.Pairwise (fun a b => a.1 < b.1) (List.enumFrom n l) := by
  induction l generalizing n with
  | nil => simp [List.enumFrom]
  | cons x xs ih =>
    simp only [List.enumFrom]
    refine List.pairwise_cons.mpr ⟨?_, ih (n + 1)⟩
    intro p hp
    have := le_fst_of_mem_enumFrom (n + 1) xs p hp
    show n < p.1
    omega

/-- C8: for a non-cached document with a non-whitespace page within the
page cap, the bullet run succeeds with exactly the blocks of the
non-empty pages among the first `maxPages`, each a "Slide N:" block, kept
in ascending page-index order (the indices of the retained tasks are
strictly increasing), and the joined text is those blocks joined by a
blank line; pages beyond the cap never change the output. -/
theorem build_bullets_ordered (pages : List Str) (maxPages : Nat)
    (gen : Nat → Str → Str)
    (h : ∃ it ∈ pageTasks pages maxPages, pyStrip it.2 ≠ []) :
    (build_bullets_from_pdf none pages maxPages gen).1 =
      .ok ⟨joinSep ('\n' :: '\n' :: [])
             (((pageTasks pages maxPages).filter (fun it => !it.2.isEmpty)).map
               (fun it => slideBlock gen it.1 it.2)),
           ((pageTasks pages maxPages).filter (fun it => !it.2.isEmpty)).map
             (fun it => slideBlock gen it.1 it.2)⟩ ∧
    ((pageTasks pages maxPages).filter (fun it => !it.2.isEmpty)) ≠ [] ∧
    List.Pairwise (fun a b => a.1 < b.1)
      ((pageTasks pages maxPages).filter (fun it => !it.2.isEmpty)) ∧
    (maxPages ≤ pages.length → ∀ extra : List Str,
      build_bullets_from_pdf none (pages ++ extra) maxPages gen =
        build_bullets_from_pdf none pages maxPages gen) := by
  obtain ⟨it0, hit0, hs0⟩ := h
  have hit0p : it0.2 ∈ pages := by
    have hmem : it0.2 ∈ pages.take maxPages := by
      have := List.mem_map_of_mem Prod.snd hit0
      rwa [pageTasks, List.enumFrom_map_snd] at this
    exact List.take_subset maxPages pages hmem
  have hne0 : it0.2 ≠ [] := by
    intro hnil
    exact hs0 (by simp [hnil, pyStrip])
  have hall : pages.all (fun p => (pyStrip p).isEmpty) = false :=
    List.all_eq_false.mpr ⟨it0.2, hit0p, by simpa [List.isEmpty_iff] using hs0⟩
  have hfil : it0 ∈ (pageTasks pages maxPages).filter (fun it => !it.2.isEmpty) :=
    List.mem_filter.mpr ⟨hit0, by simpa [List.isEmpty_iff] using hne0⟩
  have hfe : (pageTasks pages maxPages).filter (fun it => !it.2.isEmpty) ≠ [] :=
    List.ne_nil_of_mem hfil
  have hmap := filterMap_ite_eq_map_filter (fun it : Nat × Str => it.2.isEmpty)
    (fun it : Nat × Str => slideBlock gen it.1 it.2) (pageTasks pages maxPages)
  have hresne : (((pageTasks pages maxPages).filter (fun it => !it.2.isEmpty)).map
      (fun it => slideBlock gen it.1 it.2)).isEmpty = false := by
    simp [List.isEmpty_iff, hfe]
  refine ⟨?_, hfe, (pairwise_fst_enumFrom 1 (pages.take maxPages)).filter _, ?_⟩
  · simp only [build_bullets_from_pdf, hall, Bool.false_eq_true, if_false,
      hmap, hresne]
  · intro hlen extra
    have htake : (pages ++ extra).take maxPages = pages.take maxPages :=
      List.take_append_of_le_length hlen
    have hall2 : (pages ++ extra).all (fun p => (pyStrip p).isEmpty) = false :=
      List.all_eq_false.mpr ⟨it0.2, List.mem_append_left _ hit0p,
        by simpa [List.isEmpty_iff] using hs0⟩
    simp only [build_bullets_from_pdf, hall, hall2, Bool.false_eq_true, if_false,
      pageTasks, htake]

/-- C8 witness: three pages under a cap of 2, with an empty first page
and pages beyond the cap appended. -/
theorem build_bullets_ordered_witness :
    (∃ it ∈ pageTasks [([] : Str), ("b".toList), ("c".toList)] 2,
      pyStrip it.2 ≠ []) ∧
    ((build_bullets_from_pdf none [([] : Str), ("b".toList), ("c".toList)] 2
        (fun i _ => [Char.ofNat (48 + i)])).1 =
      .ok ⟨joinSep ('\n' :: '\n' :: [])
             (((pageTasks [([] : Str), ("b".toList), ("c".toList)] 2).filter
                 (fun it => !it.2.isEmpty)).map
               (fun it => slideBlock (fun i _ => [Char.ofNat (48 + i)]) it.1 it.2)),
           ((pageTasks [([] : Str), ("b".toList), ("c".toList)] 2).filter
               (fun it => !it.2.isEmpty)).map
             (fun it => slideBlock (fun i _ => [Char.ofNat (48 + i)]) it.1 it.2)⟩ ∧
      ((pageTasks [([] : Str), ("b".toList), ("c".toList)] 2).filter
          (fun it => !it.2.isEmpty)) ≠ [] ∧
      List.Pairwise (fun a b => a.1 < b.1)
        ((pageTasks [([] : Str), ("b".toList), ("c".toList)] 2).filter
          (fun it => !it.2.isEmpty)) ∧
      (2 ≤ ([([] : Str), ("b".toList), ("c".toList)]).length → ∀ extra : List Str,
        build_bullets_from_pdf none ([([] : Str), ("b".toList), ("c".toList)] ++ extra)
            2 (fun i _ => [Char.ofNat (48 + i)]) =
          build_bullets_from_pdf none [([] : Str), ("b".toList), ("c".toList)] 2
            (fun i _ => [Char.ofNat (48 + i)]))) :=
  ⟨⟨(2, ("b".toList)), by decide, by decide⟩,
   build_bullets_ordered [([] : Str), ("b".toList), ("c".toList)] 2
     (fun i _ => [Char.ofNat (48 + i)]) ⟨(2, ("b".toList)), by decide, by decide⟩⟩

theorem inFlight_replicate (n : Nat) :
    inFlight (List.replicate n TaskPhase.pend) = 0 := by
  induction n with
  | zero => rfl
  | succ n ih => simpa [List.replicate, inFlight] using ih

theorem inFlight_set (ts : List TaskPhase) (i : Nat) (v old : TaskPhase)
    (h : ts[i]? = some old) :
    inFlight (ts.set i v) + (if old = .run then 1 else 0) =
      inFlight ts + (if v = .run then 1 else 0) := by
  induction ts generalizing i with
  | nil => simp at h
  | cons c t ih =>
    cases i with
    | zero =>
      simp only [List.getElem?_cons_zero, Option.some.injEq] at h
      subst h
      cases c <;> cases v <;> simp [inFlight, List.set]
    | succ i =>
      simp only [List.getElem?_cons_succ] at h
      have := ih i h
      cases c <;> simp only [inFlight, List.set] <;> omega

/-- C9: with permit count `K`, in every state reachable from `n` page
tasks issued together, at most `K` generation calls are in flight — a
task acquires the semaphore only while a permit is free, so calls beyond
the bound stay pending until a permit is released. -/
theorem semaphore_bound (K n : Nat) (ts : List TaskPhase)
    (h : SemReach K n ts) : inFlight ts ≤ K := by
  induction h with
  | refl => simp [inFlight_replicate]
  | tail hs step ih =>
    cases step with
    | acquire i hi hcap =>
      have := inFlight_set _ i .run .pend hi
      simp at this
      omega
    | finish i hi =>
      have := inFlight_set _ i .done .run hi
      simp at this
      omega

/-- C9 witness: with the configured bound 4 and 10 page tasks (Scenario
C), the state reached after two tasks acquire permits has at most 4 calls
in flight. -/
theorem semaphore_bound_witness :
    SemReach 4 10 (((List.replicate 10 TaskPhase.pend).set 0 .run).set 1 .run) ∧
    inFlight (((List.replicate 10 TaskPhase.pend).set 0 .run).set 1 .run) ≤ 4 := by
  have s1 : SemStep 4 (List.replicate 10 TaskPhase.pend)
      ((List.replicate 10 TaskPhase.pend).set 0 .run) :=
    SemStep.acquire _ 0 (by decide) (by decide)
  have s2 : SemStep 4 ((List.replicate 10 TaskPhase.pend).set 0 .run)
      (((List.replicate 10 TaskPhase.pend).set 0 .run).set 1 .run) :=
    SemStep.acquire _ 1 (by decide) (by decide)
  have hr : SemReach 4 10 (((List.replicate 10 TaskPhase.pend).set 0 .run).set 1 .run) :=
    Relation.ReflTransGen.tail (Relation.ReflTransGen.single s1) s2
  exact ⟨hr, semaphore_bound 4 10 _ hr⟩

/-- C2 witness: the chunker invariants at a concrete three-paragraph
input whose middle paragraph exceeds the budget. -/
theorem chunk_text_spec_witness :
    (chunkRaw ("a\nbbbbbb\ncc".toList) 4).flatten = splitNl ("a\nbbbbbb\ncc".toList) ∧
    joinNl (chunk_text ("a\nbbbbbb\ncc".toList) 4) = ("a\nbbbbbb\ncc".toList) ∧
    (∀ c ∈ chunkRaw ("a\nbbbbbb\ncc".toList) 4, ∀ p ∈ c, 4 < p.length → c = [p]) :=
  chunk_text_spec ("a\nbbbbbb\ncc".toList) 4

/-- C6 witness (amended): acceptance at a concrete two-card list whose
first card has empty front and back, and rejection at a concrete card
list whose only card lacks a `front` field. -/
theorem parse_cards_validation_witness :
    parse_cards (some (mkCardsJson [(([] : Str), ([] : Str)),
        (("f".toList), ("b".toList))])) =
      .ok [⟨some ("qa".toList), [], [], none⟩,
           ⟨some ("qa".toList), ("f".toList), ("b".toList), none⟩] ∧
    parse_cards (some (.obj [(("cards".toList),
        .arr [.obj [(("back".toList), .str ("b".toList))]])])) = .error () :=
  ⟨parse_cards_validation.1 [(([] : Str), ([] : Str)), (("f".toList), ("b".toList))],
   parse_cards_validation.2 [.obj [(("back".toList), .str ("b".toList))]]
     [(("back".toList), .str ("b".toList))] (List.mem_singleton.mpr rfl)
     (Or.inl (fun s h => by
       rw [show lookupField [(("back".toList), Json.str ("b".toList))]
           ("front".toList) = none from rfl] at h
       exact Option.noConfusion h))⟩

end StudyBuddy
